import Mathlib

set_option maxRecDepth 8000

/-!
Shallow embedding of the extraction engine of the InvoceProject repository
(`src/Moldularversion/logic.py` and `src/pdf_processor.py`).

The Python regular-expression engine is the boundary of the embedding: each
`re.finditer` call site is modelled by passing in the list of matches (one
entry per match, carrying its captured groups) that the corresponding pattern
produced on the input text, in text order, exactly as `finditer` yields them.
Every line of logic that the repository itself executes on those matches is
translated literally from the source.  For the folio patterns that claims
C4 and C5 exercise, the matcher itself is implemented character by character
(`contpaqFolioMatches`, `folioFiscalAt`), following the semantics of the
concrete patterns in `find_folio`.  Character classes are modelled at ASCII
level, which covers all pattern letters and digits involved.
-/

/-! ### Python string primitives -/

/-- ASCII model of the whitespace class used by Python `str.strip` and by the
regex class `\s`: space, tab, newline, carriage return, vertical tab, form feed. -/
def isSpaceCh (c : Char) : Bool :=
  c = ' ' || c = Char.ofNat 9 || c = Char.ofNat 10 || c = Char.ofNat 13 ||
    c = Char.ofNat 11 || c = Char.ofNat 12

/-- Python `str.strip()` (ASCII whitespace model). -/
def pyStrip (s : String) : String :=
  String.mk (((s.toList.dropWhile isSpaceCh).reverse.dropWhile isSpaceCh).reverse)

/-- Python `str.isdigit()` (ASCII model): nonempty and all decimal digits. -/
def isPyDigit (s : String) : Bool :=
  !(s.toList.isEmpty) && s.toList.all Char.isDigit

/-- Python `int(s)` for the nonnegative decimal strings the extractor feeds it
(`\d+` captures, possibly after `.strip()`); any other input raises
`ValueError` in Python, modelled as `none`. -/
def pyInt (s : String) : Option Nat :=
  let t := pyStrip s
  if isPyDigit t then some (t.toList.foldl (fun a c => 10 * a + (c.toNat - 48)) 0)
  else none

/-- The character for a decimal digit value. -/
def digitCh (d : Nat) : Char := Char.ofNat (48 + d)

/-- Decimal digit list of a natural number (fuel-structured so that it reduces
in the kernel; fuel `n + 1` always suffices). -/
def natDecAux : Nat → Nat → List Char
  | 0, _ => []
  | f + 1, n => if n < 10 then [digitCh n] else natDecAux f (n / 10) ++ [digitCh (n % 10)]

/-- Python `str(n)` for a nonnegative int: its decimal representation. -/
def natDec (n : Nat) : String := String.mk (natDecAux (n + 1) n)

/-! ### Reference records and the extraction state

`find_references_dba` / `find_references_totalnot` / `find_references_contpaq`
(`logic.py` 161-464) build a list `references` of `{"Type": ..., "Number": ...}`
dictionaries together with two per-category claimed-number sets
`found_escritura_numbers` and `found_acta_numbers`. -/

structure Ref where
  type : String
  number : String
deriving DecidableEq, Repr

/-- The two reference categories of the extractor. -/
inductive RefCat where
  | esc
  | acta
deriving DecidableEq

/-- The `type_name` string attached to each category in the source tables. -/
def catName : RefCat → String
  | .esc => "Escritura"
  | .acta => "Acta Fuera de Protocolo"

structure ExtractState where
  refs : List Ref
  escritura_found : List String
  acta_found : List String
deriving DecidableEq, Repr

def claimedSet (st : ExtractState) : RefCat → List String
  | .esc => st.escritura_found
  | .acta => st.acta_found

/-- The single mutation the extractor ever performs on its state
(`if num_str not in found_set: references.append(...); found_set.add(num_str)`). -/
def addRef (st : ExtractState) (c : RefCat) (n : String) : ExtractState :=
  if n ∈ claimedSet st c then st
  else
    match c with
    | .esc => ⟨st.refs ++ [⟨catName .esc, n⟩], st.escritura_found ++ [n], st.acta_found⟩
    | .acta => ⟨st.refs ++ [⟨catName .acta, n⟩], st.escritura_found, st.acta_found ++ [n]⟩

/-- `num_str = g.strip(); if num_str and num_str.isdigit() and num_str not in
found_set: append` — the guarded add used by the list, compound and
Instrumentos branches. -/
def addIfDigit (st : ExtractState) (c : RefCat) (raw : String) : ExtractState :=
  let n := pyStrip raw
  if n ≠ "" ∧ isPyDigit n = true then addRef st c n else st

/-- One optional captured group, as iterated by
`for i in range(1, len(match.groups()) + 1): if match.group(i): ...`
(`None` and empty groups are skipped before stripping). -/
def stepOptGroup (c : RefCat) (st : ExtractState) (g : Option String) : ExtractState :=
  match g with
  | none => st
  | some raw => if raw ≠ "" then addIfDigit st c raw else st

/-- All groups of one match, in group order. -/
def stepGroups (c : RefCat) (st : ExtractState) (gs : List (Option String)) : ExtractState :=
  gs.foldl (stepOptGroup c) st

/-- One range match (`is_range` branch, `logic.py` 249-256):
`start, end = int(g1), int(g2); if start <= end: for num in range(start, end+1):
 if str(num) not in found_set: append`.  A `ValueError` from `int` is raised
before any append and caught by the surrounding `except`, so the match is
skipped with the state unchanged. -/
def stepRange (c : RefCat) (st : ExtractState) (m : String × String) : ExtractState :=
  match pyInt m.1, pyInt m.2 with
  | some a, some b =>
      if a ≤ b then
        ((List.range (b + 1 - a)).map (a + ·)).foldl (fun s n => addRef s c (natDec n)) st
      else st
  | _, _ => st

/-- One "Y"-list match (`logic.py` 266-274): both groups are mandatory in the
pattern; each is stripped, digit-checked and claim-checked in order. -/
def stepListY (c : RefCat) (st : ExtractState) (m : String × String) : ExtractState :=
  let st1 := addIfDigit st c m.1
  addIfDigit st1 c m.2

/-- The "Singles Last" block (`logic.py` 284-299): collect the stripped,
digit-checked candidates first, then append those not yet claimed. -/
def stepSingleCollect (c : RefCat) (st : ExtractState) (ms : List String) : ExtractState :=
  let pot := (ms.map pyStrip).filter (fun n => !(n.isEmpty) && isPyDigit n)
  pot.foldl (fun s n => addRef s c n) st

/-! ### Sorting (`logic.py` 301-306)

`sort_key(item) = (item["Type"], int(item["Number"]) or float('inf'))`, applied
with Python's stable `list.sort`.  A stable sort by a total preorder has a
unique result, so the stable `List.insertionSort` models it exactly. -/

/-- `int(item["Number"])` with `ValueError` mapped to `float('inf')`,
modelled as `none`. -/
def refNumKey (r : Ref) : Option Nat := pyInt r.number

/-- Python's `<` on strings: lexicographic comparison by code point, a proper
prefix coming first. -/
def listLexLt : List Char → List Char → Bool
  | [], [] => false
  | [], _ :: _ => true
  | _ :: _, [] => false
  | a :: as, b :: bs => a.toNat < b.toNat || (a.toNat = b.toNat && listLexLt as bs)

def strLt (a b : String) : Bool := listLexLt a.toList b.toList

/-- Order on the numeric component of the sort key; `none` is `+inf`. -/
def optNatLe : Option Nat → Option Nat → Bool
  | some a, some b => a ≤ b
  | some _, none => true
  | none, some _ => false
  | none, none => true

/-- The non-strict order induced by the tuple key `(Type, numeric value)`. -/
def refKeyLe (a b : Ref) : Bool :=
  strLt a.type b.type || (decide (a.type = b.type) && optNatLe (refNumKey a) (refNumKey b))

def refLeR (a b : Ref) : Prop := refKeyLe a b = true

instance : DecidableRel refLeR := fun a b => inferInstanceAs (Decidable (refKeyLe a b = true))

/-- `references.sort(key=sort_key)`. -/
def sortRefs (l : List Ref) : List Ref := List.insertionSort refLeR l

/-! ### The reference extractors, parameterised by the regex matches -/

/-- The matches of the eleven patterns `find_references_dba` runs, in the order
the function processes them.  Range and Y-list patterns have two mandatory
groups; the Instrumentos and `REGEX_ACTA_SPECIAL` branches iterate over all
(possibly missing) groups of each match; the single patterns have one
mandatory group. -/
structure DbaMatches where
  inst_esc_single : List (List (Option String))
  inst_esc_comma : List (List (Option String))
  inst_act_single : List (List (Option String))
  inst_act_comma : List (List (Option String))
  inst_combined : List (List (Option String) × List (Option String))
  esc_range : List (String × String)
  acta_range : List (String × String)
  acta_range_al : List (String × String)
  esc_list_y : List (String × String)
  acta_list_y : List (String × String)
  acta_special : List (List (Option String))
  esc_single : List String
  acta_single : List String
deriving DecidableEq

/-- The state `find_references_dba` (`logic.py` 161-308) has accumulated just
before its final sort, on the match lists its patterns produced.  The
date-exclusion preprocessing (167-179) happens before matching and is
therefore part of the boundary. -/
def dbaFinalState (m : DbaMatches) : ExtractState :=
  let st : ExtractState := ⟨[], [], []⟩
  let st := m.inst_esc_single.foldl (stepGroups .esc) st
  let st := m.inst_esc_comma.foldl (stepGroups .esc) st
  let st := m.inst_act_single.foldl (stepGroups .acta) st
  let st := m.inst_act_comma.foldl (stepGroups .acta) st
  let st := m.inst_combined.foldl (fun s g => stepGroups .acta (stepGroups .esc s g.1) g.2) st
  let st := m.esc_range.foldl (stepRange .esc) st
  let st := m.acta_range.foldl (stepRange .acta) st
  let st := m.acta_range_al.foldl (stepRange .acta) st
  let st := m.esc_list_y.foldl (stepListY .esc) st
  let st := m.acta_list_y.foldl (stepListY .acta) st
  let st := m.acta_special.foldl (stepGroups .acta) st
  let st := stepSingleCollect .esc st m.esc_single
  stepSingleCollect .acta st m.acta_single

/-- `find_references_dba` (`logic.py` 161-308): accumulate, then sort. -/
def find_references_dba (m : DbaMatches) : List Ref :=
  sortRefs (dbaFinalState m).refs

/-- Matches of the eight patterns run by `find_references_totalnot` and
`find_references_contpaq`; for `REGEX_ACTA_SPECIAL` only the mandatory group 1
is consulted there (`logic.py` 342-346, 420-424). -/
structure StdMatches where
  esc_range : List (String × String)
  acta_range : List (String × String)
  acta_range_al : List (String × String)
  esc_list_y : List (String × String)
  acta_list_y : List (String × String)
  acta_special : List String
  esc_single : List String
  acta_single : List String
deriving DecidableEq

/-- Pre-sort state of the common body of `find_references_totalnot`
(`logic.py` 311-386) and `find_references_contpaq` (389-464); the two source
functions are line-for-line identical. -/
def stdFinalState (m : StdMatches) : ExtractState :=
  let st : ExtractState := ⟨[], [], []⟩
  let st := m.esc_range.foldl (stepRange .esc) st
  let st := m.acta_range.foldl (stepRange .acta) st
  let st := m.acta_range_al.foldl (stepRange .acta) st
  let st := m.esc_list_y.foldl (stepListY .esc) st
  let st := m.acta_list_y.foldl (stepListY .acta) st
  let st := m.acta_special.foldl (fun s g => addIfDigit s .acta g) st
  let st := stepSingleCollect .esc st m.esc_single
  stepSingleCollect .acta st m.acta_single

/-- Common body of `find_references_totalnot` and `find_references_contpaq`. -/
def stdReferenceExtract (m : StdMatches) : List Ref :=
  sortRefs (stdFinalState m).refs

def find_references_totalnot (m : StdMatches) : List Ref := stdReferenceExtract m

def find_references_contpaq (m : StdMatches) : List Ref := stdReferenceExtract m

/-! ### Folio resolution (`logic.py` 66-154)

For the CONTPAQ branch the two patterns involved — the candidate pattern
`\bFOLIO:\s*(\w+)\b` and the lookback pattern `\bFolio\s+fiscal\b`, both
case-insensitive — are implemented character by character, so `find_folio`'s
CONTPAQ behaviour is a genuine function of the raw text. -/

/-- ASCII model of the regex class `\w`: letters, digits, underscore. -/
def isWordCh (c : Char) : Bool := c.isAlphanum || c = '_'

/-- Case-insensitive comparison of the slice of `l` starting at `i` against a
lowercase pattern. -/
def ciHasAt (l : List Char) (i : Nat) (pat : List Char) : Bool :=
  ((l.drop i).take pat.length).map Char.toLower == pat

/-- The regex word boundary `\b` immediately before position `i` (the pattern
characters that follow are always word characters here). -/
def boundaryBefore (l : List Char) (i : Nat) : Bool :=
  if i = 0 then true
  else
    match l.get? (i - 1) with
    | some c => !isWordCh c
    | none => true

/-- The regex word boundary `\b` at position `k` coming after a word character
(satisfied at end of text or before a non-word character). -/
def boundaryAfter (l : List Char) (k : Nat) : Bool :=
  match l.get? k with
  | some c => !isWordCh c
  | none => true

/-- A match of `\bFOLIO:\s*(\w+)\b` (IGNORECASE) starting at position `i`:
returns the captured group and the end position of the match.  The trailing
`\b` is automatic because `\w+` is taken maximal. -/
def folioColonAt (l : List Char) (i : Nat) : Option (String × Nat) :=
  if boundaryBefore l i && ciHasAt l i ("folio:".toList) then
    let ws := ((l.drop (i + 6)).takeWhile isSpaceCh).length
    let g := (l.drop (i + 6 + ws)).takeWhile isWordCh
    if g.isEmpty then none else some (String.mk g, i + 6 + ws + g.length)
  else none

/-- `re.finditer` scan for `\bFOLIO:\s*(\w+)\b`: leftmost matches, resuming
after each match's end (fuel-structured; matches are nonempty so fuel
`l.length + 1` suffices). -/
def scanFolioColon (l : List Char) : Nat → Nat → List (Nat × String)
  | 0, _ => []
  | f + 1, i =>
    if l.length ≤ i then []
    else
      match folioColonAt l i with
      | some (g, e) => (i, g) :: scanFolioColon l f e
      | none => scanFolioColon l f (i + 1)

/-- All matches of the CONTPAQ candidate pattern on `s`, with start positions,
in text order. -/
def contpaqFolioMatches (s : String) : List (Nat × String) :=
  scanFolioColon s.toList (s.toList.length + 1) 0

/-- A match of `\bFolio\s+fiscal\b` (IGNORECASE) starting at position `i`. -/
def folioFiscalAt (l : List Char) (i : Nat) : Bool :=
  boundaryBefore l i && ciHasAt l i ("folio".toList) &&
    (let ws := ((l.drop (i + 5)).takeWhile isSpaceCh).length
     decide (1 ≤ ws) && ciHasAt l (i + 5 + ws) ("fiscal".toList) &&
       boundaryAfter l (i + 5 + ws + 6))

/-- `re.search(r'\bFolio\s+fiscal\b', chunk, re.IGNORECASE)` as a Boolean. -/
def hasFolioFiscalL (chunk : List Char) : Bool :=
  (List.range chunk.length).any (folioFiscalAt chunk)

/-- `text[max(0, start - 30) : start]`, the 30-character lookback window. -/
def precedingWindow (l : List Char) (i : Nat) : List Char :=
  (l.take i).drop (i - 30)

/-- The CONTPAQ candidate-selection loop (`logic.py` 121-139): walk the
matches from last to first and keep the first whose lookback window does not
contain "Folio fiscal". -/
def contpaq_candidate (s : String) : Option String :=
  (((contpaqFolioMatches s).reverse).find?
      (fun m => !hasFolioFiscalL (precedingWindow s.toList m.1))).map (·.2)

/-- The final checks of `find_folio` (`logic.py` 143-154): a candidate longer
than 20 characters is suspected to be a fiscal folio; no candidate yields
NOT_FOUND; otherwise the candidate itself is returned. -/
def finalizeFolio (folio : Option String) : String :=
  match folio with
  | some f =>
      if f ≠ "" ∧ 20 < f.length then "FOLIO_FISCAL_SUSPECTED"
      else if f = "" then "NOT_FOUND"
      else f
  | none => "NOT_FOUND"

/-- The CONTPAQ branch of `find_folio` (`logic.py` 66-154 restricted to
`invoice_type == 'CONTPAQ'`); an absent text is passed as `""` (both are falsy
and hit the same early return). -/
def find_folio_contpaq (s : String) : String :=
  if s = "" then "NOT_FOUND"
  else finalizeFolio (contpaq_candidate s)

/-! ### `process_single_pdf` (`logic.py` 469-559)

Text extraction, folio resolution and reference finding are the inputs here:
`text` is the result of `extract_text_from_pdf` (`none` models Python `None`),
`folio` the result of `find_folio`, and `references` the result of the
type-specific reference finder (the function only calls it when `text` is not
`None`, so callers always pass `references = []` with `text = none`). -/

structure OutRow where
  doc_type : String
  ref_number : String
  invoice_folio : String
  source_pdf : String
  full_path : String
deriving DecidableEq, Repr

/-- The row-assembly block of `process_single_pdf` (`logic.py` 509-555). -/
def assembleRows (text : Option String) (invoice_type folio : String)
    (references : List Ref) (filename pdf_path : String) : List OutRow :=
  let rows1 : List OutRow :=
    if text = none ∧ invoice_type = "DBA" ∧
        folio ∉ (["NOT_FOUND", "ERROR", "FOLIO_FISCAL_SUSPECTED"] : List String) then
      [⟨"N/A", "TEXT_EXTRACTION_FAILED", folio, filename, pdf_path⟩]
    else if text ≠ none ∧ references = [] then
      [⟨"N/A", "N/A", folio, filename, pdf_path⟩]
    else if references ≠ [] then
      references.map (fun r => ⟨r.type, r.number, folio, filename, pdf_path⟩)
    else []
  if rows1 = [] ∧ text = none ∧ (folio = "NOT_FOUND" ∨ folio = "ERROR") then
    [⟨"ERROR", (if text = none then "Text Extraction Failed" else "Processing Error"),
      (if folio = "NOT_FOUND" then folio else "ERROR"), filename, pdf_path⟩]
  else if rows1 = [] then
    [⟨"N/A", "N/A", folio, filename, pdf_path⟩]
  else rows1

/-- `process_single_pdf` (`logic.py` 469-559) with the text-extraction result
and the downstream analysis results as parameters; the early return at lines
479-483 fires when text extraction failed for a non-DBA type. -/
def process_single_pdf (text : Option String) (invoice_type folio : String)
    (references : List Ref) (filename pdf_path : String) : List OutRow :=
  if text = none ∧ invoice_type ≠ "DBA" then
    [⟨"ERROR", "Text Extraction Failed", "ERROR", filename, pdf_path⟩]
  else assembleRows text invoice_type folio references filename pdf_path

/-! ### JSON values and `json.loads` (model)

`query_llm_for_details` (`pdf_processor.py` 95-274) drives `json.loads` over
candidate substrings of the oracle reply.  The parser below models `json.loads`
on the JSON subset the oracle contract uses (objects, arrays, strings with
simple escapes, integers, booleans, null); it is fuel-structured so that every
concrete run reduces in the kernel. -/

inductive Jv where
  | null
  | bool (b : Bool)
  | num (n : Int)
  | str (s : String)
  | arr (elems : List Jv)
  | obj (pairs : List (String × Jv))

/-- Discriminator for the `is not None` checks. -/
def Jv.isNull : Jv → Bool
  | .null => true
  | _ => false

def braceO : Char := Char.ofNat 123
def braceC : Char := Char.ofNat 125
def brackO : Char := Char.ofNat 91
def brackC : Char := Char.ofNat 93
def quoteCh : Char := Char.ofNat 34
def backslashCh : Char := Char.ofNat 92

/-- JSON insignificant whitespace. -/
def isJsonWs (c : Char) : Bool :=
  c = ' ' || c = Char.ofNat 9 || c = Char.ofNat 10 || c = Char.ofNat 13

/-- Body of a JSON string after the opening quote: returns the decoded string
and the remaining input after the closing quote.  Handles the simple
single-character escapes; anything else fails. -/
def parseStrBody : Nat → List Char → Option (List Char × List Char)
  | 0, _ => none
  | _, [] => none
  | f + 1, c :: rest =>
    if c = quoteCh then some ([], rest)
    else if c = backslashCh then
      match rest with
      | [] => none
      | e :: rest2 =>
        let dec : Option Char :=
          if e = quoteCh then some quoteCh
          else if e = backslashCh then some backslashCh
          else if e = '/' then some '/'
          else if e = 'n' then some (Char.ofNat 10)
          else if e = 't' then some (Char.ofNat 9)
          else if e = 'r' then some (Char.ofNat 13)
          else if e = 'b' then some (Char.ofNat 8)
          else if e = 'f' then some (Char.ofNat 12)
          else none
        match dec with
        | some d => (parseStrBody f rest2).map (fun p => (d :: p.1, p.2))
        | none => none
    else (parseStrBody f rest).map (fun p => (c :: p.1, p.2))

/-- An integer literal (optional minus, one or more digits); fractions and
exponents are outside the modelled subset and fail. -/
def parseIntLit (l : List Char) : Option (Int × List Char) :=
  let core : List Char → Option (Nat × List Char) := fun l0 =>
    let ds := l0.takeWhile Char.isDigit
    if ds.isEmpty then none
    else some (ds.foldl (fun a c => 10 * a + (c.toNat - 48)) 0, l0.drop ds.length)
  match l with
  | c :: rest =>
    if c = '-' then (core rest).map (fun p => (-(p.1 : Int), p.2))
    else (core l).map (fun p => ((p.1 : Int), p.2))
  | [] => none

mutual

def parseJv : Nat → List Char → Option (Jv × List Char)
  | 0, _ => none
  | f + 1, l =>
    match l.dropWhile isJsonWs with
    | [] => none
    | c :: rest =>
      if c = quoteCh then (parseStrBody f rest).map (fun p => (.str (String.mk p.1), p.2))
      else if c = braceO then
        match (rest.dropWhile isJsonWs) with
        | d :: rest2 => if d = braceC then some (.obj [], rest2) else parseMembers f (c :: rest)
        | [] => none
      else if c = brackO then
        match (rest.dropWhile isJsonWs) with
        | d :: rest2 => if d = brackC then some (.arr [], rest2) else parseItems f (c :: rest)
        | [] => none
      else if ciHasAt (c :: rest) 0 ("true".toList) then some (.bool true, (c :: rest).drop 4)
      else if ciHasAt (c :: rest) 0 ("false".toList) then some (.bool false, (c :: rest).drop 5)
      else if ciHasAt (c :: rest) 0 ("null".toList) then some (.null, (c :: rest).drop 4)
      else (parseIntLit (c :: rest)).map (fun p => (.num p.1, p.2))

/-- Members of a nonempty object; the input starts at the separator to consume
(the opening brace for the first member, a comma afterwards). -/
def parseMembers : Nat → List Char → Option (Jv × List Char)
  | 0, _ => none
  | f + 1, l =>
    match l with
    | [] => none
    | _ :: rest =>
      match rest.dropWhile isJsonWs with
      | k :: rest2 =>
        if k = quoteCh then
          match parseStrBody f rest2 with
          | some (key, rest3) =>
            match rest3.dropWhile isJsonWs with
            | colon :: rest4 =>
              if colon = ':' then
                match parseJv f rest4 with
                | some (v, rest5) =>
                  match rest5.dropWhile isJsonWs with
                  | sep :: rest6 =>
                    if sep = braceC then some (.obj [(String.mk key, v)], rest6)
                    else if sep = ',' then
                      match parseMembers f (sep :: rest6) with
                      | some (.obj more, rest7) => some (.obj ((String.mk key, v) :: more), rest7)
                      | _ => none
                    else none
                  | [] => none
                | none => none
              else none
            | [] => none
          | none => none
        else none
      | [] => none

/-- Items of a nonempty array; input starts at the separator to consume. -/
def parseItems : Nat → List Char → Option (Jv × List Char)
  | 0, _ => none
  | f + 1, l =>
    match l with
    | [] => none
    | _ :: rest =>
      match parseJv f rest with
      | some (v, rest2) =>
        match rest2.dropWhile isJsonWs with
        | sep :: rest3 =>
          if sep = brackC then some (.arr [v], rest3)
          else if sep = ',' then
            match parseItems f (sep :: rest3) with
            | some (.arr more, rest4) => some (.arr (v :: more), rest4)
            | _ => none
          else none
        | [] => none
      | none => none

end

/-- `json.loads` (model): parse the whole string, requiring only whitespace to
remain ("Extra data" is an error). -/
def pyJsonLoads (s : String) : Option Jv :=
  match parseJv (s.toList.length + 2) s.toList with
  | some (v, rest) => if (rest.dropWhile isJsonWs).isEmpty then some v else none
  | none => none

/-- Python truthiness of a parsed JSON value (`if extracted_data:`). -/
def pyTruthy : Jv → Bool
  | .null => false
  | .bool b => b
  | .num n => decide (n ≠ 0)
  | .str s => !(s.isEmpty)
  | .arr l => !(l.isEmpty)
  | .obj l => !(l.isEmpty)

/-- Python `str(value)` as applied by the validation code.  Scalars are
rendered exactly; container reprs are never consulted by any claim and are
kept abstract as a fixed marker. -/
def pyStr : Jv → String
  | .null => "None"
  | .bool true => "True"
  | .bool false => "False"
  | .num n => toString n
  | .str s => s
  | .arr _ => "[container]"
  | .obj _ => "[container]"

/-! ### Response recovery layers (`pdf_processor.py` 180-211) -/

/-- The dict `json.loads` builds from an object's key/value pairs: first
occurrence keeps its position, later duplicates overwrite the value. -/
def pyDictOf (ps : List (String × Jv)) : List (String × Jv) :=
  ps.foldl
    (fun acc kv =>
      if acc.any (fun e => e.1 = kv.1) then
        acc.map (fun e => if e.1 = kv.1 then (e.1, kv.2) else e)
      else acc ++ [kv])
    []

/-- Lookup in a Python dict modelled as a unique-key association list. -/
def dictGet (d : List (String × Jv)) (k : String) : Option Jv :=
  (d.find? (fun e => e.1 = k)).map (·.2)

/-- `re.search(r'```json\s*(\{.*?\})\s*```', content, re.DOTALL | re.IGNORECASE)`:
leftmost fence, then the lazily-shortest brace-delimited group whose closing
brace is followed by optional whitespace and the closing fence. -/
def fencedJsonSpan (s : String) : Option String :=
  let l := s.toList
  (List.range l.length).findSome? fun p =>
    if ciHasAt l p ("```json".toList) then
      let ws := ((l.drop (p + 7)).takeWhile isSpaceCh).length
      let q := p + 7 + ws
      if l.get? q = some braceO then
        (List.range l.length).findSome? fun d =>
          let e := q + 1 + d
          if l.get? e = some braceC then
            let tail := (l.drop (e + 1)).dropWhile isSpaceCh
            if (tail.take 3) = ("```".toList) then some (String.mk ((l.drop q).take (e - q + 1)))
            else none
          else none
      else none
    else none

/-- `re.search(r'(\{.*?\})', content, re.DOTALL)`: the span from the leftmost
opening brace that has a closing brace after it, up to the nearest such
closing brace — lazy, not balance-aware. -/
def firstBraceSpan (s : String) : Option String :=
  let l := s.toList
  (List.range l.length).findSome? fun p =>
    if l.get? p = some braceO then
      (List.range l.length).findSome? fun d =>
        let e := p + 1 + d
        if l.get? e = some braceC then some (String.mk ((l.drop p).take (e - p + 1)))
        else none
    else none

/-! ### Validation and normalisation (`pdf_processor.py` 213-248) -/

structure ValidatedLlm where
  folio_number : String
  document_type : String
  document_id : String
deriving DecidableEq, Repr

/-- `{k.lower(): k for k in extracted_data.keys()}` — lowercase key map, later
keys overwriting earlier ones. -/
def keysLowerMap (d : List (String × Jv)) : List (String × String) :=
  d.foldl
    (fun acc kv =>
      let lk := String.mk (kv.1.toList.map Char.toLower)
      if acc.any (fun e => e.1 = lk) then
        acc.map (fun e => if e.1 = lk then (lk, kv.1) else e)
      else acc ++ [(lk, kv.1)])
    []

/-- The per-key body of the validation loop (`pdf_processor.py` 222-230):
find the original key case-insensitively, require a non-null value, stringify
and strip it, and fall back to "N/A" for missing/null/empty. -/
def extractReqField (d : List (String × Jv)) (req : String) : String :=
  match ((keysLowerMap d).find? (fun e => e.1 = req)).map (·.2) with
  | some ok =>
    if ok = "" then "N/A"
    else
      match dictGet d ok with
      | some v =>
        if v.isNull then "N/A"
        else if pyStrip (pyStr v) = "" then "N/A" else pyStrip (pyStr v)
      | none => "N/A"
  | none => "N/A"

def allowedLlmTypes : List String := ["Escritura", "Acta Fuera de Protocolo", "Both", "N/A"]

/-- The three required fields as first assigned (`pdf_processor.py` 216-230). -/
def rawValidated (d : List (String × Jv)) : ValidatedLlm :=
  ⟨extractReqField d "folio_number", extractReqField d "document_type",
    extractReqField d "document_id"⟩

/-- The `document_type` whitelist coercion (`pdf_processor.py` 232-236). -/
def typeCoerced (d : List (String × Jv)) : ValidatedLlm :=
  let v := rawValidated d
  if v.document_type ∈ allowedLlmTypes then v
  else ⟨v.folio_number, "N/A", v.document_id⟩

/-- The full validation (`pdf_processor.py` 213-248): whitelist coercion, then
the type-over-id consistency rule forcing `document_id` to "N/A" whenever the
type is "N/A". -/
def py_validate (d : List (String × Jv)) : ValidatedLlm :=
  let v := typeCoerced d
  if v.document_type = "N/A" ∧ v.document_id ≠ "N/A" then
    ⟨v.folio_number, v.document_type, "N/A"⟩
  else v

/-- `if extracted_data:` followed by the validation block.  A truthy non-dict
raises `AttributeError` at `.keys()`, caught by the outermost
`except Exception` (line 271) and mapped to `None`; a falsy value (such as the
empty object) reaches the final `else` (249-252) and returns `None`. -/
def finishValidation : Jv → Option ValidatedLlm
  | v =>
    if pyTruthy v then
      match v with
      | .obj pairs => some (py_validate (pyDictOf pairs))
      | _ => none
    else none

/-! ### `query_llm_for_details` (`pdf_processor.py` 95-274)

The transport is the boundary: `LlmOutcome` is what the `requests.post` /
`raise_for_status` / `response.json()` sequence produced.  `timeout`,
`connectionError` and `requestError` are the three `requests.exceptions`
handlers (`raise_for_status` turns every non-2xx status into an `HTTPError`,
a `RequestException` subclass).  For `ok`, each element of `choices` is the
`message.content` field of one choice, `none` when it is missing or not a
string. -/

inductive LlmOutcome where
  | timeout
  | connectionError
  | requestError
  | ok (choices : List (Option String))
deriving DecidableEq

def query_llm_for_details : LlmOutcome → Option ValidatedLlm
  | .timeout => none
  | .connectionError => none
  | .requestError => none
  | .ok [] => none
  | .ok (choice :: _) =>
    match choice with
    | none => none
    | some content0 =>
      let content := pyStrip content0
      if content = "" then none
      else
        match pyJsonLoads content with
        | some v => finishValidation v
        | none =>
          match fencedJsonSpan content with
          | some js =>
            match pyJsonLoads js with
            | some v => finishValidation v
            | none => none
          | none =>
            match firstBraceSpan content with
            | some js =>
              match pyJsonLoads js with
              | some v => finishValidation v
              | none => none
            | none => none

/-! ### Order facts about the sort key -/

theorem char_toNat_inj {a b : Char} (h : a.toNat = b.toNat) : a = b := by
  apply Char.ext
  apply UInt32.ext
  simpa [Char.toNat, UInt32.toNat] using h

theorem listLexLt_tri : ∀ as bs : List Char,
    listLexLt as bs = true ∨ as = bs ∨ listLexLt bs as = true := by
  intro as
  induction as with
  | nil => intro bs; cases bs <;> simp [listLexLt]
  | cons a as ih =>
    intro bs
    cases bs with
    | nil => simp [listLexLt]
    | cons b bs =>
      rcases Nat.lt_trichotomy a.toNat b.toNat with h | h | h
      · left; simp [listLexLt, h]
      · rcases ih bs with h2 | h2 | h2
        · left; simp [listLexLt, h, h2]
        · right; left; rw [char_toNat_inj h, h2]
        · right; right; simp [listLexLt, h.symm, h2]
      · right; right; simp [listLexLt, h]

theorem listLexLt_trans : ∀ as bs cs : List Char,
    listLexLt as bs = true → listLexLt bs cs = true → listLexLt as cs = true := by
  intro as
  induction as with
  | nil =>
    intro bs cs h1 h2
    cases bs with
    | nil => simpa [listLexLt] using h1
    | cons b bs => cases cs with
      | nil => simp [listLexLt] at h2
      | cons c cs => simp [listLexLt]
  | cons a as ih =>
    intro bs cs h1 h2
    cases bs with
    | nil => simp [listLexLt] at h1
    | cons b bs =>
      cases cs with
      | nil => simp [listLexLt] at h2
      | cons c cs =>
        simp only [listLexLt, Bool.or_eq_true, Bool.and_eq_true, decide_eq_true_eq] at h1 h2 ⊢
        rcases h1 with h1 | ⟨he1, h1⟩
        · rcases h2 with h2 | ⟨he2, h2⟩
          · exact Or.inl (h1.trans h2)
          · exact Or.inl (he2 ▸ h1)
        · rcases h2 with h2 | ⟨he2, h2⟩
          · exact Or.inl (he1 ▸ h2)
          · exact Or.inr ⟨he1.trans he2, ih bs cs h1 h2⟩

theorem strLt_tri (a b : String) : strLt a b = true ∨ a = b ∨ strLt b a = true := by
  rcases listLexLt_tri a.toList b.toList with h | h | h
  · exact Or.inl h
  · exact Or.inr (Or.inl (String.ext h))
  · exact Or.inr (Or.inr h)

theorem optNatLe_total (x y : Option Nat) : optNatLe x y = true ∨ optNatLe y x = true := by
  cases x <;> cases y <;> simp [optNatLe] <;> omega

theorem optNatLe_trans {x y z : Option Nat} (h1 : optNatLe x y = true)
    (h2 : optNatLe y z = true) : optNatLe x z = true := by
  cases x <;> cases y <;> cases z <;> simp [optNatLe] at h1 h2 ⊢ <;> omega

instance : IsTotal Ref refLeR := by
  constructor
  intro a b
  simp only [refLeR, refKeyLe, Bool.or_eq_true, Bool.and_eq_true, decide_eq_true_eq]
  rcases strLt_tri a.type b.type with h | h | h
  · exact Or.inl (Or.inl h)
  · rcases optNatLe_total (refNumKey a) (refNumKey b) with h2 | h2
    · exact Or.inl (Or.inr ⟨h, h2⟩)
    · exact Or.inr (Or.inr ⟨h.symm, h2⟩)
  · exact Or.inr (Or.inl h)

instance : IsTrans Ref refLeR := by
  constructor
  intro a b c hab hbc
  simp only [refLeR, refKeyLe, Bool.or_eq_true, Bool.and_eq_true, decide_eq_true_eq] at hab hbc ⊢
  rcases hab with hab | ⟨hea, hna⟩
  · rcases hbc with hbc | ⟨heb, _⟩
    · exact Or.inl (listLexLt_trans _ _ _ hab hbc)
    · exact Or.inl (heb ▸ hab)
  · rcases hbc with hbc | ⟨heb, hnb⟩
    · exact Or.inl (hea ▸ hbc)
    · exact Or.inr ⟨hea.trans heb, optNatLe_trans hna hnb⟩

/-! ### State invariants of the extractors -/

/-- Claimed-set coherence and uniqueness: the two `found_*` sets hold exactly
the numbers of the records of their category, and the record list has no
duplicate. -/
def RefsInv (st : ExtractState) : Prop :=
  st.refs.Nodup ∧
    (∀ n, Ref.mk "Escritura" n ∈ st.refs ↔ n ∈ st.escritura_found) ∧
    (∀ n, Ref.mk "Acta Fuera de Protocolo" n ∈ st.refs ↔ n ∈ st.acta_found)

theorem addRef_refsInv (st : ExtractState) (c : RefCat) (n : String)
    (h : RefsInv st) : RefsInv (addRef st c n) := by
  obtain ⟨hnd, hesc, hacta⟩ := h
  unfold addRef
  split
  · exact ⟨hnd, hesc, hacta⟩
  · rename_i hmem
    cases c with
    | esc =>
      refine ⟨?_, ?_, ?_⟩
      · rw [List.nodup_append]
        refine ⟨hnd, List.nodup_singleton _, ?_⟩
        rw [List.disjoint_singleton]
        intro hin
        exact hmem ((hesc n).mp hin)
      · intro m
        simp only [List.mem_append, List.mem_singleton, Ref.mk.injEq, catName]
        rw [hesc m]
        constructor
        · rintro (h | ⟨-, h⟩) <;> simp [h]
        · rintro (h | h) <;> simp [h]
      · intro m
        simp only [List.mem_append, List.mem_singleton, Ref.mk.injEq, catName]
        rw [hacta m]
        simp
    | acta =>
      refine ⟨?_, ?_, ?_⟩
      · rw [List.nodup_append]
        refine ⟨hnd, List.nodup_singleton _, ?_⟩
        rw [List.disjoint_singleton]
        intro hin
        exact hmem ((hacta n).mp hin)
      · intro m
        simp only [List.mem_append, List.mem_singleton, Ref.mk.injEq, catName]
        rw [hesc m]
        simp
      · intro m
        simp only [List.mem_append, List.mem_singleton, Ref.mk.injEq, catName]
        rw [hacta m]
        constructor
        · rintro (h | ⟨-, h⟩) <;> simp [h]
        · rintro (h | h) <;> simp [h]

/-- All numbers appended so far are nonempty digit strings. -/
def DigitsInv (st : ExtractState) : Prop :=
  ∀ r ∈ st.refs, isPyDigit r.number = true

theorem addRef_digitsInv (st : ExtractState) (c : RefCat) (n : String)
    (hn : isPyDigit n = true) (h : DigitsInv st) : DigitsInv (addRef st c n) := by
  unfold addRef
  split
  · exact h
  · cases c <;>
      · intro r hr
        rcases List.mem_append.mp hr with hr | hr
        · exact h r hr
        · rw [List.mem_singleton.mp hr]
          exact hn

theorem foldl_pres_mem {α : Type} {P : ExtractState → Prop} {f : ExtractState → α → ExtractState} :
    ∀ (l : List α), (∀ st x, x ∈ l → P st → P (f st x)) →
      ∀ st, P st → P (l.foldl f st) := by
  intro l
  induction l with
  | nil => intro _ st h; exact h
  | cons x xs ih =>
    intro hf st h
    exact ih (fun st y hy => hf st y (List.mem_cons_of_mem _ hy)) _
      (hf st x (List.mem_cons_self _ _) h)

def AddPres (P : ExtractState → Prop) : Prop :=
  ∀ st c n, isPyDigit n = true → P st → P (addRef st c n)

theorem addIfDigit_pres {P : ExtractState → Prop} (hadd : AddPres P)
    (st : ExtractState) (c : RefCat) (raw : String)
    (h : P st) : P (addIfDigit st c raw) := by
  unfold addIfDigit
  dsimp only
  split
  · rename_i hc
    exact hadd _ _ _ hc.2 h
  · exact h

theorem stepOptGroup_pres {P : ExtractState → Prop} (hadd : AddPres P)
    (st : ExtractState) (c : RefCat) (g : Option String)
    (h : P st) : P (stepOptGroup c st g) := by
  unfold stepOptGroup
  cases g with
  | none => exact h
  | some raw =>
    dsimp only
    split
    · exact addIfDigit_pres hadd st c raw h
    · exact h

theorem stepGroups_pres {P : ExtractState → Prop} (hadd : AddPres P)
    (st : ExtractState) (c : RefCat) (gs : List (Option String))
    (h : P st) : P (stepGroups c st gs) :=
  foldl_pres_mem gs (fun st g _ h => stepOptGroup_pres hadd st c g h) st h

theorem isPyDigit_natDec (n : Nat) : isPyDigit (natDec n) = true := by
  have hdigits : ∀ f n, (natDecAux f n).all Char.isDigit = true := by
    intro f
    induction f with
    | zero => intro n; rfl
    | succ f ih =>
      intro n
      unfold natDecAux
      split
      · rename_i hn
        have : (digitCh n).isDigit = true := by
          interval_cases n <;> decide
        simp [this]
      · have hm : (digitCh (n % 10)).isDigit = true := by
          have h10 : n % 10 < 10 := Nat.mod_lt _ (by decide)
          interval_cases h : n % 10 <;> decide
        simp [List.all_append, ih, hm]
  have hne : ∀ f n, 0 < f → natDecAux f n ≠ [] := by
    intro f n hf
    cases f with
    | zero => omega
    | succ f =>
      unfold natDecAux
      split
      · simp
      · simp
  unfold isPyDigit natDec
  have h1 := hdigits (n + 1) n
  have h2 := hne (n + 1) n (by omega)
  simp only [Bool.and_eq_true]
  constructor
  · simpa [List.isEmpty_iff] using h2
  · exact h1

theorem stepRange_pres {P : ExtractState → Prop} (hadd : AddPres P)
    (st : ExtractState) (c : RefCat) (m : String × String)
    (h : P st) : P (stepRange c st m) := by
  unfold stepRange
  cases pyInt m.1 with
  | none => exact h
  | some a =>
    cases pyInt m.2 with
    | none => exact h
    | some b =>
      dsimp only
      split
      · exact foldl_pres_mem _
          (fun st k _ h => hadd st c (natDec k) (isPyDigit_natDec k) h) st h
      · exact h

theorem stepListY_pres {P : ExtractState → Prop} (hadd : AddPres P)
    (st : ExtractState) (c : RefCat) (m : String × String)
    (h : P st) : P (stepListY c st m) :=
  addIfDigit_pres hadd _ c m.2 (addIfDigit_pres hadd st c m.1 h)

theorem stepSingleCollect_pres {P : ExtractState → Prop} (hadd : AddPres P)
    (st : ExtractState) (c : RefCat) (ms : List String)
    (h : P st) : P (stepSingleCollect c st ms) := by
  unfold stepSingleCollect
  refine foldl_pres_mem _ (fun st n hn h => ?_) st h
  have h2 := (List.mem_filter.mp hn).2
  simp only [Bool.and_eq_true] at h2
  exact hadd st c n h2.2 h

theorem dbaFinalState_pres {P : ExtractState → Prop} (hadd : AddPres P)
    (h0 : P ⟨[], [], []⟩) (m : DbaMatches) :
    P (dbaFinalState m) := by
  unfold dbaFinalState
  refine stepSingleCollect_pres hadd _ _ _ ?_
  refine stepSingleCollect_pres hadd _ _ _ ?_
  refine foldl_pres_mem _ (fun st g _ h => stepGroups_pres hadd _ _ _ h) _ ?_
  refine foldl_pres_mem _ (fun st g _ h => stepListY_pres hadd _ _ _ h) _ ?_
  refine foldl_pres_mem _ (fun st g _ h => stepListY_pres hadd _ _ _ h) _ ?_
  refine foldl_pres_mem _ (fun st g _ h => stepRange_pres hadd _ _ _ h) _ ?_
  refine foldl_pres_mem _ (fun st g _ h => stepRange_pres hadd _ _ _ h) _ ?_
  refine foldl_pres_mem _ (fun st g _ h => stepRange_pres hadd _ _ _ h) _ ?_
  refine foldl_pres_mem _
    (fun st g _ h => stepGroups_pres hadd _ _ _ (stepGroups_pres hadd _ _ _ h)) _ ?_
  refine foldl_pres_mem _ (fun st g _ h => stepGroups_pres hadd _ _ _ h) _ ?_
  refine foldl_pres_mem _ (fun st g _ h => stepGroups_pres hadd _ _ _ h) _ ?_
  refine foldl_pres_mem _ (fun st g _ h => stepGroups_pres hadd _ _ _ h) _ ?_
  refine foldl_pres_mem _ (fun st g _ h => stepGroups_pres hadd _ _ _ h) _ ?_
  exact h0

theorem stdFinalState_pres {P : ExtractState → Prop} (hadd : AddPres P)
    (h0 : P ⟨[], [], []⟩) (m : StdMatches) :
    P (stdFinalState m) := by
  unfold stdFinalState
  refine stepSingleCollect_pres hadd _ _ _ ?_
  refine stepSingleCollect_pres hadd _ _ _ ?_
  refine foldl_pres_mem _ (fun st g _ h => addIfDigit_pres hadd _ _ _ h) _ ?_
  refine foldl_pres_mem _ (fun st g _ h => stepListY_pres hadd _ _ _ h) _ ?_
  refine foldl_pres_mem _ (fun st g _ h => stepListY_pres hadd _ _ _ h) _ ?_
  refine foldl_pres_mem _ (fun st g _ h => stepRange_pres hadd _ _ _ h) _ ?_
  refine foldl_pres_mem _ (fun st g _ h => stepRange_pres hadd _ _ _ h) _ ?_
  refine foldl_pres_mem _ (fun st g _ h => stepRange_pres hadd _ _ _ h) _ ?_
  exact h0

theorem emptyState_refsInv : RefsInv ⟨[], [], []⟩ :=
  ⟨List.nodup_nil, by simp [RefsInv], by simp [RefsInv]⟩

theorem refsInv_dbaFinalState (m : DbaMatches) : RefsInv (dbaFinalState m) :=
  dbaFinalState_pres (fun st c n _ h => addRef_refsInv st c n h) emptyState_refsInv m

theorem refsInv_stdFinalState (m : StdMatches) : RefsInv (stdFinalState m) :=
  stdFinalState_pres (fun st c n _ h => addRef_refsInv st c n h) emptyState_refsInv m

theorem emptyState_digitsInv : DigitsInv ⟨[], [], []⟩ := by
  intro r hr
  simp at hr

theorem digitsInv_dbaFinalState (m : DbaMatches) : DigitsInv (dbaFinalState m) :=
  dbaFinalState_pres addRef_digitsInv emptyState_digitsInv m

theorem digitsInv_stdFinalState (m : StdMatches) : DigitsInv (stdFinalState m) :=
  stdFinalState_pres addRef_digitsInv emptyState_digitsInv m

/-- The pair projection is injective on `Ref`. -/
theorem refPair_injective : Function.Injective (fun r : Ref => (r.type, r.number)) := by
  intro a b h
  cases a
  cases b
  simpa using h

/-- Sorting preserves the no-duplicate-pairs property. -/
theorem sortRefs_pairs_nodup {l : List Ref} (h : l.Nodup) :
    ((sortRefs l).map (fun r => (r.type, r.number))).Nodup := by
  have hperm : (sortRefs l).Perm l := List.perm_insertionSort refLeR l
  have := (hperm.map (fun r : Ref => (r.type, r.number))).nodup_iff
  exact this.mpr (h.map refPair_injective)

/-- C2: for every input text, the list of ReferenceRecords returned by
`find_references_dba` (and likewise `find_references_totalnot` and
`find_references_contpaq`) contains each (category, number) pair at most once,
however many of the range, list, compound and single rules independently match
that number: every append is guarded by the per-category claimed-numbers set. -/
theorem C2_pair_uniqueness (m : DbaMatches) (m2 m3 : StdMatches) :
    ((find_references_dba m).map (fun r => (r.type, r.number))).Nodup ∧
      ((find_references_totalnot m2).map (fun r => (r.type, r.number))).Nodup ∧
      ((find_references_contpaq m3).map (fun r => (r.type, r.number))).Nodup := by
  refine ⟨?_, ?_, ?_⟩
  · exact sortRefs_pairs_nodup (refsInv_dbaFinalState m).1
  · exact sortRefs_pairs_nodup (refsInv_stdFinalState m2).1
  · exact sortRefs_pairs_nodup (refsInv_stdFinalState m3).1

/-- C10: every ReferenceRecord emitted by the pattern-based extractors has a
Number that is a nonempty string of decimal digits: range expansion emits
`str` of an int, and every other candidate passes an `isdigit()` check before
being appended. -/
theorem C10_numbers_all_digits (m : DbaMatches) (m2 m3 : StdMatches) :
    (find_references_dba m).all (fun r => isPyDigit r.number) = true ∧
      (find_references_totalnot m2).all (fun r => isPyDigit r.number) = true ∧
      (find_references_contpaq m3).all (fun r => isPyDigit r.number) = true := by
  refine ⟨?_, ?_, ?_⟩
  · rw [List.all_eq_true]
    intro r hr
    exact digitsInv_dbaFinalState m r ((List.mem_insertionSort refLeR).mp hr)
  · rw [List.all_eq_true]
    intro r hr
    exact digitsInv_stdFinalState m2 r ((List.mem_insertionSort refLeR).mp hr)
  · rw [List.all_eq_true]
    intro r hr
    exact digitsInv_stdFinalState m3 r ((List.mem_insertionSort refLeR).mp hr)

/-! C8 concerns the final ordering.  The code sorts with the key
`(Type, int(Number) or +inf)` and a stable sort; the claim asserts in addition
an original-string tiebreak between equal numeric values, which the code does
not apply — ties stay in discovery order. -/

/-- Strict order on the numeric component, `none` largest. -/
def optNatLt : Option Nat → Option Nat → Bool
  | some a, some b => a < b
  | some _, none => true
  | none, _ => false

/-- Modelled from the spec: the sort order claim C8 asserts, lexicographic on
(category, numeric value ascending, original number string as tiebreak), with
non-numeric numbers after all numeric ones. -/
def claimKeyLe (a b : Ref) : Bool :=
  strLt a.type b.type ||
    (decide (a.type = b.type) &&
      (optNatLt (refNumKey a) (refNumKey b) ||
        (refNumKey a == refNumKey b &&
          (strLt a.number b.number || decide (a.number = b.number)))))

def claimLeR (a b : Ref) : Prop := claimKeyLe a b = true

instance : DecidableRel claimLeR := fun a b => inferInstanceAs (Decidable (claimKeyLe a b = true))

/-- C8 counterexample: on the text "Escritura 7 Escritura 007" the single-rule
pattern captures the groups "7" and then "007" (both pass the lookahead
guards); both are appended — the claimed-set is keyed by the string, so "007"
is not a duplicate of "7" — and their numeric keys are equal, so the stable
sort leaves them in discovery order ["7", "007"], while the claimed
original-string tiebreak would require ["007", "7"].  The returned list is
therefore not sorted by the key stated in the claim. -/
theorem C8_counterexample :
    ¬ List.Sorted claimLeR
      (find_references_dba ⟨[], [], [], [], [], [], [], [], [], [], [], ["7", "007"], []⟩) := by
  decide

/-- C8 (amended): the returned list is sorted by (category, numeric value of
the number ascending, with every non-numeric number keyed after all numeric
ones); records whose keys tie are left in discovery order by the stable sort —
there is no original-string tiebreak.  The claim's concrete example, which has
no numeric tie, sorts exactly as stated. -/
theorem C8_output_sorted (m : DbaMatches) (m2 m3 : StdMatches) :
    List.Sorted refLeR (find_references_dba m) ∧
      List.Sorted refLeR (find_references_totalnot m2) ∧
      List.Sorted refLeR (find_references_contpaq m3) ∧
      sortRefs [⟨"A", "10"⟩, ⟨"A", "2"⟩, ⟨"A", "abc"⟩] =
        [⟨"A", "2"⟩, ⟨"A", "10"⟩, ⟨"A", "abc"⟩] := by
  refine ⟨?_, ?_, ?_, by decide⟩
  · exact List.sorted_insertionSort refLeR _
  · exact List.sorted_insertionSort refLeR _
  · exact List.sorted_insertionSort refLeR _

/-- C1: `process_single_pdf` always returns at least one record, and a
document whose text was extracted but whose reference list is empty yields
exactly one sentinel record (Document Type "N/A", Reference Number "N/A") with
the resolved folio value. -/
theorem C1_one_record_and_sentinel (text : Option String) (ty folio : String)
    (refs : List Ref) (fn fp t : String) :
    1 ≤ (process_single_pdf text ty folio refs fn fp).length ∧
      process_single_pdf (some t) ty folio [] fn fp =
        [⟨"N/A", "N/A", folio, fn, fp⟩] := by
  constructor
  · unfold process_single_pdf assembleRows
    split_ifs <;>
      simp_all [List.length_map] <;>
      first
        | exact List.length_pos.mpr (by assumption)
        | (split <;> simp)
  · unfold process_single_pdf assembleRows
    split_ifs <;> simp_all

/-- C4: `find_folio`'s final checks reclassify any candidate longer than 20
characters as FOLIO_FISCAL_SUSPECTED (in particular a 25-character candidate),
return a 6-character candidate as the folio value, and yield NOT_FOUND when no
pattern matched at all (shown for the fully modelled CONTPAQ branch). -/
theorem C4_folio_length_heuristic (c s : String) :
    (20 < c.length → finalizeFolio (some c) = "FOLIO_FISCAL_SUSPECTED") ∧
      (c.length = 25 → finalizeFolio (some c) = "FOLIO_FISCAL_SUSPECTED") ∧
      (c.length = 6 → finalizeFolio (some c) = c) ∧
      finalizeFolio none = "NOT_FOUND" ∧
      (s ≠ "" → contpaqFolioMatches s = [] → find_folio_contpaq s = "NOT_FOUND") := by
  have hlen0 : ("" : String).length = 0 := rfl
  have main : 20 < c.length → finalizeFolio (some c) = "FOLIO_FISCAL_SUSPECTED" := by
    intro h
    have hne : c ≠ "" := by
      intro he
      rw [he, hlen0] at h
      omega
    simp only [finalizeFolio]
    rw [if_pos ⟨hne, h⟩]
  refine ⟨main, fun h => main (by omega), fun h => ?_, rfl, fun hs hm => ?_⟩
  · have hne : c ≠ "" := by
      intro he
      rw [he, hlen0] at h
      omega
    simp only [finalizeFolio]
    rw [if_neg (by intro hc; omega), if_neg hne]
  · unfold find_folio_contpaq contpaq_candidate
    rw [if_neg hs, hm]
    rfl

/-- C4 witness: a 25-character candidate is suspected, a 6-character candidate
is returned, and a text without any FOLIO: match resolves to NOT_FOUND. -/
theorem C4_witness :
    finalizeFolio (some "ABCDEFGHIJKLMNOPQRSTUVWXY") = "FOLIO_FISCAL_SUSPECTED" ∧
      finalizeFolio (some "123456") = "123456" ∧
      find_folio_contpaq "hello" = "NOT_FOUND" :=
  ⟨(C4_folio_length_heuristic "ABCDEFGHIJKLMNOPQRSTUVWXY" "hello").2.1 (by decide),
    (C4_folio_length_heuristic "123456" "hello").2.2.1 (by decide),
    (C4_folio_length_heuristic "x" "hello").2.2.2.2 (by decide) (by decide)⟩

theorem foldl_addRef_noop (c : RefCat) :
    ∀ (ns : List String) (st : ExtractState), (∀ n ∈ ns, n ∈ claimedSet st c) →
      ns.foldl (fun s n => addRef s c n) st = st := by
  intro ns
  induction ns with
  | nil => intro st _; rfl
  | cons n ns ih =>
    intro st h
    have hn : addRef st c n = st := by
      unfold addRef
      rw [if_pos (h n (List.mem_cons_self _ _))]
    rw [List.foldl_cons, hn]
    exact ih st (fun y hy => h y (List.mem_cons_of_mem _ hy))

/-- The singles pass adds nothing when every candidate is already claimed. -/
theorem stepSingleCollect_noop (c : RefCat) (st : ExtractState) (ms : List String)
    (h : ∀ n ∈ ms, pyStrip n ∈ claimedSet st c) : stepSingleCollect c st ms = st := by
  unfold stepSingleCollect
  dsimp only
  apply foldl_addRef_noop
  intro n hn
  rcases List.mem_filter.mp hn with ⟨hmem, -⟩
  rcases List.mem_map.mp hmem with ⟨y, hy, rfl⟩
  exact h y hy

/-- C6: a text whose Escritura matches are the range "100 A 103" together with
single-rule mentions drawn from those same numbers (the claim's "101") yields
exactly 100, 101, 102, 103 once each: the range expands inclusively and the
singles pass is fully absorbed by the claimed-numbers check, so not even a
re-match of a range number (which the negative lookahead already prevents in
the regex itself) could produce a duplicate. -/
theorem C6_range_single_dedup (ss : List String)
    (h101 : "101" ∈ ss)
    (hsub : ∀ x ∈ ss, x ∈ (["100", "101", "102", "103"] : List String)) :
    find_references_dba ⟨[], [], [], [], [], [("100", "103")], [], [], [], [], [], ss, []⟩ =
      [⟨"Escritura", "100"⟩, ⟨"Escritura", "101"⟩, ⟨"Escritura", "102"⟩,
        ⟨"Escritura", "103"⟩] := by
  have hrange :
      List.foldl (stepRange .esc) (⟨[], [], []⟩ : ExtractState) [("100", "103")] =
        ⟨[⟨"Escritura", "100"⟩, ⟨"Escritura", "101"⟩, ⟨"Escritura", "102"⟩,
          ⟨"Escritura", "103"⟩], ["100", "101", "102", "103"], []⟩ := by
    decide
  unfold find_references_dba dbaFinalState
  simp only [List.foldl_nil]
  rw [hrange]
  rw [stepSingleCollect_noop .esc _ ss ?claimed]
  case claimed =>
    intro n hn
    have := hsub n hn
    simp only [List.mem_cons, List.not_mem_nil, or_false] at this
    rcases this with rfl | rfl | rfl | rfl <;> decide
  rw [show ∀ st : ExtractState, stepSingleCollect .acta st [] = st from fun _ => rfl]
  decide

/-- C6 witness at the claim's own instance: the single mention is "101". -/
theorem C6_witness :
    find_references_dba ⟨[], [], [], [], [], [("100", "103")], [], [], [], [], [], ["101"], []⟩ =
      [⟨"Escritura", "100"⟩, ⟨"Escritura", "101"⟩, ⟨"Escritura", "102"⟩,
        ⟨"Escritura", "103"⟩] :=
  C6_range_single_dedup ["101"] (by decide) (by decide)

/-- C7: a range match whose end is smaller than its start contributes zero
records: the `start <= end` guard skips it (and the `int` conversions would
raise before any append, caught by the `except`), leaving the state unchanged,
while every other match in the text is still processed. -/
theorem C7_invalid_range (g1 g2 : String) (a b : Nat)
    (h1 : pyInt g1 = some a) (h2 : pyInt g2 = some b) (hba : b < a) :
    (∀ (st : ExtractState) (c : RefCat), stepRange c st (g1, g2) = st) ∧
      ∀ (i1 i2 i3 i4 : List (List (Option String)))
        (ic : List (List (Option String) × List (Option String)))
        (pre post r2 r3 l1 l2 : List (String × String))
        (sp : List (List (Option String))) (s1 s2 : List String),
        find_references_dba
            ⟨i1, i2, i3, i4, ic, pre ++ (g1, g2) :: post, r2, r3, l1, l2, sp, s1, s2⟩ =
          find_references_dba
            ⟨i1, i2, i3, i4, ic, pre ++ post, r2, r3, l1, l2, sp, s1, s2⟩ := by
  have hid : ∀ (st : ExtractState) (c : RefCat), stepRange c st (g1, g2) = st := by
    intro st c
    unfold stepRange
    dsimp only
    rw [h1, h2]
    dsimp only
    rw [if_neg (by omega)]
  refine ⟨hid, ?_⟩
  intro i1 i2 i3 i4 ic pre post r2 r3 l1 l2 sp s1 s2
  unfold find_references_dba dbaFinalState
  dsimp only
  have hfold : ∀ st : ExtractState,
      List.foldl (stepRange .esc) st (pre ++ (g1, g2) :: post) =
        List.foldl (stepRange .esc) st (pre ++ post) := by
    intro st
    rw [List.foldl_append, List.foldl_append, List.foldl_cons, hid]
  rw [hfold]

/-- C7 witness: the invalid range "50 A 10" adds nothing while the later valid
range "3 A 4" in the same text is still expanded. -/
theorem C7_witness :
    find_references_dba
        ⟨[], [], [], [], [], [("50", "10"), ("3", "4")], [], [], [], [], [], [], []⟩ =
      find_references_dba ⟨[], [], [], [], [], [("3", "4")], [], [], [], [], [], [], []⟩ :=
  (C7_invalid_range "50" "10" 50 10 (by decide) (by decide) (by decide)).2
    [] [] [] [] [] [] [("3", "4")] [] [] [] [] [] [] []

theorem getLast?_cons_or {α : Type} (x : α) (xs : List α) :
    (x :: xs).getLast? = xs.getLast?.or (some x) := by
  cases xs with
  | nil => rfl
  | cons b bs =>
    rw [List.getLast?_cons_cons]
    have hne : (b :: bs).getLast?.isSome := by
      rw [List.getLast?_isSome]
      simp
    rcases Option.isSome_iff_exists.mp hne with ⟨y, hy⟩
    rw [hy]
    rfl

/-- Scanning a reversed list for the first hit finds the last hit of the
original list. -/
theorem find_rev_eq_filter_getLast {α : Type} (p : α → Bool) :
    ∀ l : List α, l.reverse.find? p = (l.filter p).getLast? := by
  intro l
  induction l with
  | nil => rfl
  | cons a l ih =>
    rw [List.reverse_cons, List.find?_append, ih, List.filter_cons]
    by_cases hp : p a = true
    · rw [if_pos hp, getLast?_cons_or]
      have : List.find? p [a] = some a := by simp [List.find?, hp]
      rw [this]
    · rw [if_neg hp]
      have hpa : p a = false := by revert hp; cases p a <;> simp
      have : List.find? p [a] = none := by simp [List.find?, hpa]
      rw [this, Option.or_none]

/-- Every group the FOLIO: scanner captures is nonempty (`\w+`). -/
theorem contpaqMatches_group_ne (s : String) :
    ∀ m ∈ contpaqFolioMatches s, m.2 ≠ "" := by
  have hat : ∀ l i g e, folioColonAt l i = some (g, e) → g ≠ "" := by
    intro l i g e h
    unfold folioColonAt at h
    split at h
    · dsimp only at h
      split at h
      · exact absurd h (by simp)
      · rename_i hemp
        injection h with h1
        injection h1 with hg _
        rw [← hg]
        intro hmk
        have : ((l.drop (i + 6 + ((l.drop (i + 6)).takeWhile isSpaceCh).length)).takeWhile isWordCh) = [] := by
          have := congrArg String.data hmk
          simpa using this
        rw [← List.isEmpty_iff] at this
        simp [this] at hemp
    · exact absurd h (by simp)
  have hscan : ∀ (l : List Char) (f i : Nat) m, m ∈ scanFolioColon l f i → m.2 ≠ "" := by
    intro l f
    induction f with
    | zero =>
      intro i m hm
      simp [scanFolioColon] at hm
    | succ f ih =>
      intro i m hm
      unfold scanFolioColon at hm
      split at hm
      · simp at hm
      · split at hm
        · rename_i g e hfc
          rcases List.mem_cons.mp hm with rfl | hm2
          · exact hat l i g e hfc
          · exact ih e m hm2
        · exact ih (i + 1) m hm
  intro m hm
  exact hscan s.toList (s.toList.length + 1) 0 m hm

/-- C5: for CONTPAQ, `find_folio` accepts a FOLIO: match only when
"Folio fiscal" does not occur in the 30 characters before the match start, and
among several matches the last (highest-position) accepted one is the
candidate; when that candidate also passes the length check it is the folio
returned. -/
theorem C5_contpaq_last_good_match (s : String) (hs : s ≠ "") :
    contpaq_candidate s =
        (((contpaqFolioMatches s).filter
              (fun m => !hasFolioFiscalL (precedingWindow s.toList m.1))).getLast?).map (·.2) ∧
      ∀ p g,
        ((contpaqFolioMatches s).filter
              (fun m => !hasFolioFiscalL (precedingWindow s.toList m.1))).getLast? =
            some (p, g) →
          g.length ≤ 20 → find_folio_contpaq s = g := by
  have hmain : contpaq_candidate s =
      (((contpaqFolioMatches s).filter
            (fun m => !hasFolioFiscalL (precedingWindow s.toList m.1))).getLast?).map (·.2) := by
    unfold contpaq_candidate
    rw [find_rev_eq_filter_getLast]
  refine ⟨hmain, fun p g hlast hlen => ?_⟩
  have hcand : contpaq_candidate s = some g := by
    rw [hmain, hlast]
    rfl
  have hmem : (p, g) ∈ contpaqFolioMatches s := by
    rcases List.mem_getLast?_eq_getLast (Option.mem_def.mpr hlast) with ⟨hne, heq⟩
    have hmemf := List.getLast_mem hne
    rw [← heq] at hmemf
    exact (List.mem_filter.mp hmemf).1
  have hgne : g ≠ "" := contpaqMatches_group_ne s (p, g) hmem
  unfold find_folio_contpaq
  rw [if_neg hs, hcand]
  simp only [finalizeFolio]
  rw [if_neg (by intro hc; omega), if_neg hgne]

/-- C5 witness: the later FOLIO: match is rejected because "Folio fiscal"
precedes it, so the earlier match — the last one not so preceded — wins. -/
theorem C5_witness :
    find_folio_contpaq "FOLIO: 9999 and then Folio fiscal FOLIO: ABCDEF01" = "9999" :=
  (C5_contpaq_last_good_match "FOLIO: 9999 and then Folio fiscal FOLIO: ABCDEF01"
      (by decide)).2 0 "9999" (by decide) (by decide)

/-! C3 concerns the recovery cascade of `query_llm_for_details`.  The code's
third layer is the lazy regex `(\{.*?\})`, which cuts at the nearest closing
brace rather than the matching one, and it is only attempted when no fenced
block exists at all; a parse failure of a found fenced block ends the cascade.
The spec's "first balanced {...} span" is modelled below for comparison. -/

/-- Walk a character list counting brace depth; returns the index at which the
depth returns to zero. -/
def braceWalk : List Char → Int → Nat → Option Nat
  | [], _, _ => none
  | c :: rest, depth, i =>
    let d := if c = braceO then depth + 1 else if c = braceC then depth - 1 else depth
    if d = 0 then some i else braceWalk rest d (i + 1)

/-- Modelled from the spec: "find and parse the first balanced {...} span" —
the span from the first opening brace to its matching closing brace, found by
depth counting. -/
def balancedBraceSpan (s : String) : Option String :=
  let l := s.toList
  (List.range l.length).findSome? fun p =>
    if l.get? p = some braceO then
      (braceWalk (l.drop p) 0 0).map (fun k => String.mk ((l.drop p).take (k + 1)))
    else none

/-- Modelled from the spec: the three recovery layers exactly as claim C3
words them — (a) parse the whole reply, (b) extract and parse a fenced code
block, (c) find and parse the first balanced span — attempted in order until
one recovers an object, Unavailable only if all three fail. -/
def claim_recovery (content : String) : Option ValidatedLlm :=
  match pyJsonLoads content with
  | some (.obj ps) => some (py_validate (pyDictOf ps))
  | _ =>
    match (fencedJsonSpan content).bind (fun t => pyJsonLoads t) with
    | some (.obj ps) => some (py_validate (pyDictOf ps))
    | _ =>
      match (balancedBraceSpan content).bind (fun t => pyJsonLoads t) with
      | some (.obj ps) => some (py_validate (pyDictOf ps))
      | _ => none

/-- C3 counterexample: on the reply body `see {"a": {"b": "c"}} end` the code
returns Unavailable although the first *balanced* span parses fine.  The
code's layer (c) regex `(\{.*?\})` stops at the nearest closing brace and
extracts the unbalanced `{"a": {"b": "c"}`, whose parse fails, so
`query_llm_for_details` yields None — the claim, with its balanced layer (c),
predicts a successful recovery here. -/
theorem C3_counterexample :
    query_llm_for_details
        (.ok [some "see \x7b\x22a\x22: \x7b\x22b\x22: \x22c\x22\x7d\x7d end"]) = none ∧
      claim_recovery "see \x7b\x22a\x22: \x7b\x22b\x22: \x22c\x22\x7d\x7d end" ≠ none := by
  exact ⟨by decide, by decide⟩

/-- C3 (amended): every transport failure (timeout, connection error, other
request errors including non-2xx via `raise_for_status`), a missing/empty
`choices`, a non-string or empty `content` all map to Unavailable; a reply
body is recovered through three layers attempted in this order — (a) parse the
stripped reply whole; (b) if a fenced ```json block exists, parse its lazily
shortest brace group, with no further fallback when that parse fails; (c) only
when no fenced block exists, parse the span from the first opening brace to
the nearest following closing brace (not balance-aware).  A layer that
recovers a nonempty JSON object yields the validated result; recovering the
empty object, a non-object, or exhausting the layers yields Unavailable. -/
theorem C3_recovery_layers (content : String) (rest : List (Option String)) :
    query_llm_for_details .timeout = none ∧
      query_llm_for_details .connectionError = none ∧
      query_llm_for_details .requestError = none ∧
      query_llm_for_details (.ok []) = none ∧
      query_llm_for_details (.ok (none :: rest)) = none ∧
      (∀ p ps, pyJsonLoads (pyStrip content) = some (.obj (p :: ps)) →
        query_llm_for_details (.ok (some content :: rest)) =
          some (py_validate (pyDictOf (p :: ps)))) ∧
      (pyJsonLoads (pyStrip content) = some (.obj []) →
        query_llm_for_details (.ok (some content :: rest)) = none) ∧
      (∀ js p ps, pyJsonLoads (pyStrip content) = none →
        fencedJsonSpan (pyStrip content) = some js →
        pyJsonLoads js = some (.obj (p :: ps)) →
        query_llm_for_details (.ok (some content :: rest)) =
          some (py_validate (pyDictOf (p :: ps)))) ∧
      (∀ js, pyJsonLoads (pyStrip content) = none →
        fencedJsonSpan (pyStrip content) = some js →
        pyJsonLoads js = none →
        query_llm_for_details (.ok (some content :: rest)) = none) ∧
      (∀ js p ps, pyJsonLoads (pyStrip content) = none →
        fencedJsonSpan (pyStrip content) = none →
        firstBraceSpan (pyStrip content) = some js →
        pyJsonLoads js = some (.obj (p :: ps)) →
        query_llm_for_details (.ok (some content :: rest)) =
          some (py_validate (pyDictOf (p :: ps)))) ∧
      (pyJsonLoads (pyStrip content) = none →
        fencedJsonSpan (pyStrip content) = none →
        firstBraceSpan (pyStrip content) = none →
        query_llm_for_details (.ok (some content :: rest)) = none) := by
  have hload0 : pyJsonLoads "" = none := rfl
  have hne : ∀ v, pyJsonLoads (pyStrip content) = some v → pyStrip content ≠ "" := by
    intro v hv he
    rw [he, hload0] at hv
    cases hv
  refine ⟨rfl, rfl, rfl, rfl, rfl, ?_, ?_, ?_, ?_, ?_, ?_⟩
  · intro p ps h
    simp only [query_llm_for_details]
    rw [if_neg (hne _ h), h]
    simp [finishValidation, pyTruthy]
  · intro h
    simp only [query_llm_for_details]
    rw [if_neg (hne _ h), h]
    rfl
  · intro js p ps h hf hj
    have hce : pyStrip content ≠ "" := by
      intro he
      rw [he] at hf
      cases hf
    simp [query_llm_for_details, if_neg hce, h, hf, hj, finishValidation, pyTruthy]
  · intro js h hf hj
    have hce : pyStrip content ≠ "" := by
      intro he
      rw [he] at hf
      cases hf
    simp [query_llm_for_details, if_neg hce, h, hf, hj]
  · intro js p ps h hf hb hj
    have hce : pyStrip content ≠ "" := by
      intro he
      rw [he] at hb
      cases hb
    simp [query_llm_for_details, if_neg hce, h, hf, hb, hj, finishValidation, pyTruthy]
  · intro h hf hb
    by_cases hce : pyStrip content = ""
    · simp [query_llm_for_details, hce]
    · simp [query_llm_for_details, if_neg hce, h, hf, hb]

/-- C3 witness: a clean JSON reply is validated through layer (a); a reply
with no JSON at all exhausts the layers and maps to Unavailable. -/
theorem C3_witness :
    query_llm_for_details (.ok [some "\x7b\x22document_type\x22: \x22Escritura\x22\x7d"]) =
        some (py_validate (pyDictOf [("document_type", Jv.str "Escritura")])) ∧
      query_llm_for_details (.ok [some "no json here"]) = none := by
  constructor
  · exact (C3_recovery_layers "\x7b\x22document_type\x22: \x22Escritura\x22\x7d" []).2.2.2.2.2.1
      ("document_type", Jv.str "Escritura") [] (by rfl)
  · exact (C3_recovery_layers "no json here" []).2.2.2.2.2.2.2.2.2.2
      (by rfl) (by rfl) (by rfl)

/-- C9: after a successful parse, validation forces `document_id` to "N/A"
whenever the validated `document_type` is "N/A" (even if the oracle supplied
an id), while a non-"N/A" type leaves the id exactly as extracted — an id of
"N/A" with a concrete type is accepted unchanged (warning only).  Concretely,
a reply with documentType "N/A" and documentId "123" validates with
document_id "N/A". -/
theorem C9_type_over_id (d : List (String × Jv)) :
    ((py_validate d).document_type = "N/A" → (py_validate d).document_id = "N/A") ∧
      ((py_validate d).document_type ≠ "N/A" →
        (py_validate d).document_id = (typeCoerced d).document_id) ∧
      query_llm_for_details (.ok [some
          "\x7b\x22folio_number\x22: \x22F1\x22, \x22document_type\x22: \x22N/A\x22, \x22document_id\x22: \x22123\x22\x7d"]) =
        some ⟨"F1", "N/A", "N/A"⟩ := by
  refine ⟨?_, ?_, by decide⟩
  · intro h
    by_cases hc : (typeCoerced d).document_type = "N/A" ∧ (typeCoerced d).document_id ≠ "N/A"
    · simp [py_validate, hc]
    · simp only [py_validate, if_neg hc] at h ⊢
      rcases not_and_or.mp hc with hc1 | hc2
      · exact absurd h hc1
      · exact not_not.mp hc2
  · intro h
    by_cases hc : (typeCoerced d).document_type = "N/A" ∧ (typeCoerced d).document_id ≠ "N/A"
    · exfalso
      apply h
      simp [py_validate, hc, hc.1]
    · simp [py_validate, if_neg hc]

/-- C9 witness: the forcing at a type-"N/A" reply and the id preservation at a
type-"Escritura" reply with id "N/A". -/
theorem C9_witness :
    (py_validate [("document_type", Jv.str "N/A"), ("document_id", Jv.str "123")]).document_id =
        "N/A" ∧
      (py_validate [("document_type", Jv.str "Escritura"), ("document_id", Jv.str "N/A")]).document_id =
        (typeCoerced [("document_type", Jv.str "Escritura"), ("document_id", Jv.str "N/A")]).document_id :=
  ⟨(C9_type_over_id [("document_type", Jv.str "N/A"), ("document_id", Jv.str "123")]).1
      (by decide),
    (C9_type_over_id [("document_type", Jv.str "Escritura"), ("document_id", Jv.str "N/A")]).2.1
      (by decide)⟩
